import Mathlib

/-!
Verification of `physicsnemo/sym/models/afno/distributed/mappings.py`:
the Parallel Boundary Operator Set (Copy / Reduce / Scatter / Gather /
Gather-Within) used for tensor-parallel matrix multiplication.

The operators in `mappings.py` are thin compositions of three collective
primitives (`_reduce`, `_split`, `_gather`, provided by the repository's
`distributed/helpers.py` which is external to this file set) with a
per-call saved context carrying the split/gather dimension.

Embedding: a group of `N` ranks is modelled by a `List Tensor` of the
per-rank local tensors, ordered by rank.  Each collective is a function
from the group's per-rank inputs to the group's per-rank outputs.  A
tensor is a dense n-dimensional array in row-major layout: a shape list
and a flat data list.
-/

/-- A dense n-dimensional tensor: shape and row-major flat data. -/
@[ext]
structure Tensor where
  shape : List Nat
  data : List Int
  deriving DecidableEq, Repr

/-- Well-formedness: the flat data has exactly as many entries as the shape demands. -/
def Tensor.wf (t : Tensor) : Prop := t.data.length = t.shape.prod

instance (t : Tensor) : Decidable t.wf := by
  unfold Tensor.wf; infer_instance

/-- Product of the dimensions before `d` (row-major outer block count for axis `d`). -/
def outerOf (s : List Nat) (d : Nat) : Nat := (s.take d).prod

/-- The size of axis `d` (1 when out of range; callers guarantee `d` is valid). -/
def sizeAt (s : List Nat) (d : Nat) : Nat := s.getD d 1

/-- Product of the dimensions after `d` (row-major inner stride for axis `d`). -/
def innerOf (s : List Nat) (d : Nat) : Nat := (s.drop (d + 1)).prod

/-- From each of `n` consecutive blocks of length `bl`, keep the sub-range
starting at `off` of length `len`.  This is the row-major flat-data effect
of slicing axis `d` when `bl = sizeAt s d * innerOf s d` and the slice is
`[off, off+len)` in units of the inner stride. -/
def chunkData : Nat → Nat → Nat → Nat → List Int → List Int
  | 0, _, _, _, _ => []
  | n + 1, bl, off, len, l =>
      ((l.take bl).drop off).take len ++ chunkData n bl off len (l.drop bl)

/-- Interleave shard data lists block-by-block: for each of `n` outer blocks,
emit every shard's next `bl` elements in rank order.  This is the row-major
flat-data effect of concatenating equal-shaped shards along an axis. -/
def catBlocks : Nat → Nat → List (List Int) → List Int
  | 0, _, _ => []
  | n + 1, bl, ls => (ls.map (List.take bl)).flatten ++ catBlocks n bl (ls.map (List.drop bl))

/-- Modelled from the spec: the shard of rank `r` when tensor `t` is split into
`N` equal parts along axis `d` (`split(tensor, dim, group)` of the Collective
Primitives layer, whose implementation `split_tensor_along_dim` lives in
`distributed/helpers.py`, outside this file set).  The axis size is divided by
`N`; rank `r` keeps the `r`-th consecutive range along that axis. -/
def chunkT (N r d : Nat) (t : Tensor) : Tensor :=
  let c := sizeAt t.shape d / N
  let I := innerOf t.shape d
  { shape := t.shape.set d c
    data := chunkData (outerOf t.shape d) (sizeAt t.shape d * I) (r * (c * I)) (c * I) t.data }

/-- Modelled from the spec: concatenation of the ranks' equal-shaped shards
along axis `d` in rank order (the result every rank receives from
`gather(tensor, dim, group)` of the Collective Primitives layer, implemented
in `distributed/helpers.py`, outside this file set). -/
def concatT (d : Nat) (ts : List Tensor) : Tensor :=
  match ts with
  | [] => { shape := [], data := [] }
  | t :: _ =>
      let c := sizeAt t.shape d
      let I := innerOf t.shape d
      { shape := t.shape.set d (ts.length * c)
        data := catBlocks (outerOf t.shape d) (c * I) (ts.map Tensor.data) }

/-- Pointwise sum of two equal-shaped tensors. -/
def addT (a b : Tensor) : Tensor :=
  { shape := a.shape, data := List.zipWith (· + ·) a.data b.data }

/-- Modelled from the spec: the value every rank receives from the all-reduce
sum — the pointwise sum of all ranks' local tensors (`reduce(tensor, group)`
of the Collective Primitives layer, implemented in `distributed/helpers.py`,
outside this file set). -/
def sumT : List Tensor → Tensor
  | [] => { shape := [], data := [] }
  | t :: ts => ts.foldl addT t

/-- Modelled from the spec: group-level all-reduce — every rank receives the
sum of all ranks' local tensors (`_reduce` of `distributed/helpers.py`). -/
def reducePrim (gs : List Tensor) : List Tensor := gs.map fun _ => sumT gs

/-- Rank-indexed splitting, starting at rank `r`: rank `r + i` keeps chunk
`r + i` of its own local tensor. -/
def splitAux (N d : Nat) : Nat → List Tensor → List Tensor
  | _, [] => []
  | r, x :: xs => chunkT N r d x :: splitAux N d (r + 1) xs

/-- Modelled from the spec: group-level split — each rank splits its local
tensor along `d` into one part per rank and keeps the part of its own rank
(`_split` of `distributed/helpers.py`). -/
def splitPrim (d : Nat) (xs : List Tensor) : List Tensor := splitAux xs.length d 0 xs

/-- Modelled from the spec: group-level gather — every rank receives the
concatenation of all ranks' local tensors along `d` in rank order
(`_gather` of `distributed/helpers.py`). -/
def gatherPrim (d : Nat) (xs : List Tensor) : List Tensor := xs.map fun _ => concatT d xs

/-- The call-scoped context saved by the forward pass of the dimension-taking
operators (`ctx.dim = dim_` in the source) and read back by the backward pass. -/
structure SavedCtx where
  dim : Nat
  deriving DecidableEq, Repr

/-!
The five operator classes of `mappings.py`, as group-level functions: the
argument `xs`/`gs` lists every rank's local input/incoming gradient in rank
order, and the result lists every rank's output.  `forward` of the
dimension-taking operators returns the saved context alongside the outputs,
and their `backward` returns on each rank the pair
`(tensor gradient, gradient w.r.t. dim)` — the second component being the
source's literal `None`.
-/

namespace CopyToMatmulParallelRegion

/-- `_CopyToMatmulParallelRegion.symbolic`: `return input_`. -/
def symbolic (xs : List Tensor) : List Tensor := xs

/-- `_CopyToMatmulParallelRegion.forward`: `return input_`. -/
def forward (xs : List Tensor) : List Tensor := xs

/-- `_CopyToMatmulParallelRegion.backward`:
`return _reduce(grad_output, group=...)`. -/
def backward (gs : List Tensor) : List Tensor := reducePrim gs

end CopyToMatmulParallelRegion

namespace ReduceFromMatmulParallelRegion

/-- `_ReduceFromMatmulParallelRegion.symbolic`: `return _reduce(input_, group=...)`. -/
def symbolic (xs : List Tensor) : List Tensor := reducePrim xs

/-- `_ReduceFromMatmulParallelRegion.forward`: `return _reduce(input_, group=...)`. -/
def forward (xs : List Tensor) : List Tensor := reducePrim xs

/-- `_ReduceFromMatmulParallelRegion.backward`: `return grad_output`. -/
def backward (gs : List Tensor) : List Tensor := gs

end ReduceFromMatmulParallelRegion

namespace ScatterToMatmulParallelRegion

/-- `_ScatterToMatmulParallelRegion.symbolic`: `return _split(input_, dim_, group=...)`. -/
def symbolic (xs : List Tensor) (dim : Nat) : List Tensor := splitPrim dim xs

/-- `_ScatterToMatmulParallelRegion.forward`: `ctx.dim = dim_;
return _split(input_, dim_, group=...)`. -/
def forward (xs : List Tensor) (dim : Nat) : List Tensor × SavedCtx :=
  (splitPrim dim xs, { dim := dim })

/-- `_ScatterToMatmulParallelRegion.backward`:
`return (_gather(grad_output, ctx.dim, group=...), None)`. -/
def backward (ctx : SavedCtx) (gs : List Tensor) : List (Tensor × Option Tensor) :=
  (gatherPrim ctx.dim gs).map fun t => (t, none)

end ScatterToMatmulParallelRegion

namespace GatherFromMatmulParallelRegion

/-- `_GatherFromMatmulParallelRegion.symbolic`: `return _gather(input_, dim_, group=...)`. -/
def symbolic (xs : List Tensor) (dim : Nat) : List Tensor := gatherPrim dim xs

/-- `_GatherFromMatmulParallelRegion.forward`: `ctx.dim = dim_;
return _gather(input_, dim_, group=...)`. -/
def forward (xs : List Tensor) (dim : Nat) : List Tensor × SavedCtx :=
  (gatherPrim dim xs, { dim := dim })

/-- `_GatherFromMatmulParallelRegion.backward`:
`return (_split(grad_output, ctx.dim, group=...), None)`. -/
def backward (ctx : SavedCtx) (gs : List Tensor) : List (Tensor × Option Tensor) :=
  (splitPrim ctx.dim gs).map fun t => (t, none)

end GatherFromMatmulParallelRegion

namespace GatherWithinMatmulParallelRegion

/-- `_GatherWithinMatmulParallelRegion.symbolic`: `return _gather(input_, dim_, group=...)`. -/
def symbolic (xs : List Tensor) (dim : Nat) : List Tensor := gatherPrim dim xs

/-- `_GatherWithinMatmulParallelRegion.forward`: `ctx.dim = dim_;
return _gather(input_, dim_, group=...)`. -/
def forward (xs : List Tensor) (dim : Nat) : List Tensor × SavedCtx :=
  (gatherPrim dim xs, { dim := dim })

/-- `_GatherWithinMatmulParallelRegion.backward`:
`red = _reduce(grad_output, group=...); return (_split(red, ctx.dim, group=...), None)`. -/
def backward (ctx : SavedCtx) (gs : List Tensor) : List (Tensor × Option Tensor) :=
  (splitPrim ctx.dim (reducePrim gs)).map fun t => (t, none)

end GatherWithinMatmulParallelRegion

/-- Wrapper `copy_to_matmul_parallel_region(input_)`. -/
def copy_to_matmul_parallel_region (xs : List Tensor) : List Tensor :=
  CopyToMatmulParallelRegion.forward xs

/-- Wrapper `reduce_from_matmul_parallel_region(input_)`. -/
def reduce_from_matmul_parallel_region (xs : List Tensor) : List Tensor :=
  ReduceFromMatmulParallelRegion.forward xs

/-- Wrapper `scatter_to_matmul_parallel_region(input_, dim)`. -/
def scatter_to_matmul_parallel_region (xs : List Tensor) (dim : Nat) :
    List Tensor × SavedCtx :=
  ScatterToMatmulParallelRegion.forward xs dim

/-- Wrapper `gather_from_matmul_parallel_region(input_, dim)`. -/
def gather_from_matmul_parallel_region (xs : List Tensor) (dim : Nat) :
    List Tensor × SavedCtx :=
  GatherFromMatmulParallelRegion.forward xs dim

/-- Wrapper `gather_within_matmul_parallel_region(input_, dim)`. -/
def gather_within_matmul_parallel_region (xs : List Tensor) (dim : Nat) :
    List Tensor × SavedCtx :=
  GatherWithinMatmulParallelRegion.forward xs dim

/-!
Failure semantics.  Each operator body is straight-line code with no
`try`/`except` and no `raise`: it evaluates `DistributedManager().group(...)`
(the Group Registry lookup) and then the collective primitive, in source
order.  To settle the pass-through claim we re-express each body over
fallible collaborators: `group` is the outcome of the registry lookup and
`reduceC`/`splitC`/`gatherC` the outcomes of the collective calls, all in the
`Except` monad; the operator bodies below sequence them exactly as the
source does and contain no error construction or handling of their own. -/

section Fallible

variable {ε G T : Type}

/-- `_CopyToMatmulParallelRegion.forward` with fallible collaborators:
the body calls none, it is `return input_`. -/
def copyForwardE (x : T) : Except ε T := pure x

/-- `_CopyToMatmulParallelRegion.backward` with fallible collaborators:
group lookup, then `_reduce`. -/
def copyBackwardE (group : Except ε G) (reduceC : G → T → Except ε T)
    (g : T) : Except ε T := do
  let gr ← group
  reduceC gr g

/-- `_ReduceFromMatmulParallelRegion.forward` with fallible collaborators:
group lookup, then `_reduce`. -/
def reduceForwardE (group : Except ε G) (reduceC : G → T → Except ε T)
    (x : T) : Except ε T := do
  let gr ← group
  reduceC gr x

/-- `_ReduceFromMatmulParallelRegion.backward` with fallible collaborators:
the body calls none, it is `return grad_output`. -/
def reduceBackwardE (g : T) : Except ε T := pure g

/-- `_ScatterToMatmulParallelRegion.forward` with fallible collaborators:
group lookup, then `_split`. -/
def scatterForwardE (group : Except ε G) (splitC : G → Nat → T → Except ε T)
    (x : T) (dim : Nat) : Except ε (T × SavedCtx) := do
  let gr ← group
  let y ← splitC gr dim x
  pure (y, { dim := dim })

/-- `_ScatterToMatmulParallelRegion.backward` with fallible collaborators:
group lookup, then `_gather`. -/
def scatterBackwardE (group : Except ε G) (gatherC : G → Nat → T → Except ε T)
    (ctx : SavedCtx) (g : T) : Except ε (T × Option T) := do
  let gr ← group
  let y ← gatherC gr ctx.dim g
  pure (y, none)

/-- `_GatherFromMatmulParallelRegion.forward` with fallible collaborators:
group lookup, then `_gather`. -/
def gatherForwardE (group : Except ε G) (gatherC : G → Nat → T → Except ε T)
    (x : T) (dim : Nat) : Except ε (T × SavedCtx) := do
  let gr ← group
  let y ← gatherC gr dim x
  pure (y, { dim := dim })

/-- `_GatherFromMatmulParallelRegion.backward` with fallible collaborators:
group lookup, then `_split`. -/
def gatherBackwardE (group : Except ε G) (splitC : G → Nat → T → Except ε T)
    (ctx : SavedCtx) (g : T) : Except ε (T × Option T) := do
  let gr ← group
  let y ← splitC gr ctx.dim g
  pure (y, none)

/-- `_GatherWithinMatmulParallelRegion.forward` with fallible collaborators:
group lookup, then `_gather`. -/
def gatherWithinForwardE (group : Except ε G) (gatherC : G → Nat → T → Except ε T)
    (x : T) (dim : Nat) : Except ε (T × SavedCtx) := do
  let gr ← group
  let y ← gatherC gr dim x
  pure (y, { dim := dim })

/-- `_GatherWithinMatmulParallelRegion.backward` with fallible collaborators:
group lookup and `_reduce` for `red`, then group lookup and `_split`. -/
def gatherWithinBackwardE (group : Except ε G)
    (reduceC : G → T → Except ε T) (splitC : G → Nat → T → Except ε T)
    (ctx : SavedCtx) (g : T) : Except ε (T × Option T) := do
  let gr1 ← group
  let red ← reduceC gr1 g
  let gr2 ← group
  let y ← splitC gr2 ctx.dim red
  pure (y, none)

end Fallible

/-! Helper lemmas about the flat-data block operations. -/

/-- Setting an entry of a list to its own value is the identity. -/
theorem list_set_getD_self : ∀ (l : List Nat) (d : Nat), d < l.length →
    l.set d (l.getD d 1) = l
  | [], d, h => absurd h (by simp)
  | _ :: _, 0, _ => rfl
  | a :: l, d + 1, h => by
      have := list_set_getD_self l d (by simpa using h)
      simp only [List.getD_cons_succ, List.set_cons_succ, this]

/-- Row-major size decomposition at a valid axis:
`prod = outer * (size * inner)`. -/
theorem prod_decomp (s : List Nat) (d : Nat) (h : d < s.length) :
    s.prod = outerOf s d * (sizeAt s d * innerOf s d) := by
  conv_lhs => rw [← List.take_append_drop d s]
  rw [List.prod_append, List.drop_eq_getElem_cons h, List.prod_cons]
  rw [outerOf, sizeAt, innerOf, List.getD_eq_getElem s 1 h]

/-- Taking each full block in turn reassembles the whole list. -/
theorem chunkData_full : ∀ (n bl : Nat) (l : List Int), l.length = n * bl →
    chunkData n bl 0 bl l = l
  | 0, bl, l, h => by
      simp only [Nat.zero_mul] at h
      simp [chunkData, List.eq_nil_of_length_eq_zero h]
  | n + 1, bl, l, h => by
      have hlen : (l.drop bl).length = n * bl := by
        simp only [List.length_drop, h, Nat.succ_mul, Nat.add_sub_cancel]
      simp only [chunkData, List.drop_zero, List.take_take, Nat.min_self]
      rw [chunkData_full n bl (l.drop bl) hlen, List.take_append_drop]

/-- Interleaving a single shard reassembles that shard. -/
theorem catBlocks_single : ∀ (n bl : Nat) (l : List Int), l.length = n * bl →
    catBlocks n bl [l] = l
  | 0, bl, l, h => by
      simp only [Nat.zero_mul] at h
      simp [catBlocks, List.eq_nil_of_length_eq_zero h]
  | n + 1, bl, l, h => by
      have hlen : (l.drop bl).length = n * bl := by
        simp only [List.length_drop, h, Nat.succ_mul, Nat.add_sub_cancel]
      simp only [catBlocks, List.map_cons, List.map_nil, List.flatten_cons,
        List.flatten_nil, List.append_nil]
      rw [catBlocks_single n bl (l.drop bl) hlen, List.take_append_drop]

/-- A list of length `N * m` is the concatenation of its `N` consecutive
`m`-element slices. -/
theorem flatten_chunks : ∀ (N : Nat) (m : Nat) (l : List Int), l.length = N * m →
    ((List.range N).map fun r => (l.drop (r * m)).take m).flatten = l
  | 0, m, l, h => by
      simp only [Nat.zero_mul] at h
      simp [List.eq_nil_of_length_eq_zero h]
  | N + 1, m, l, h => by
      have hlen : (l.drop m).length = N * m := by
        simp only [List.length_drop, h, Nat.succ_mul, Nat.add_sub_cancel]
      rw [List.range_succ_eq_map, List.map_cons, List.flatten_cons, List.map_map]
      have hmap : ((List.range N).map
          ((fun r => (l.drop (r * m)).take m) ∘ Nat.succ)) =
          (List.range N).map fun r => ((l.drop m).drop (r * m)).take m := by
        refine List.map_congr_left fun i _ => ?_
        simp only [Function.comp_apply, List.drop_drop]
        rw [Nat.succ_mul, Nat.add_comm (i * m) m]
      rw [hmap, flatten_chunks N m (l.drop m) hlen, Nat.zero_mul, List.drop_zero]
      exact List.take_append_drop m l

/-! Structural lemmas about the collective primitives. -/

/-- `splitAux` preserves the number of ranks. -/
theorem splitAux_length (N d : Nat) : ∀ (r : Nat) (xs : List Tensor),
    (splitAux N d r xs).length = xs.length
  | _, [] => rfl
  | r, _ :: xs => by simp [splitAux, splitAux_length N d (r + 1) xs]

/-- `splitPrim` preserves the number of ranks. -/
theorem splitPrim_length (d : Nat) (xs : List Tensor) :
    (splitPrim d xs).length = xs.length := splitAux_length _ _ _ _

/-- Splitting a replicated input gives rank `r + i` chunk `r + i`. -/
theorem splitAux_replicate (N d : Nat) (x : Tensor) : ∀ (k r : Nat),
    splitAux N d r (List.replicate k x) =
      (List.range k).map fun i => chunkT N (r + i) d x
  | 0, r => by simp [splitAux]
  | k + 1, r => by
      rw [List.replicate_succ, List.range_succ_eq_map, List.map_cons, List.map_map]
      simp only [splitAux, splitAux_replicate N d x k (r + 1), Nat.add_zero]
      refine congrArg₂ _ rfl (List.map_congr_left fun i _ => ?_)
      simp only [Function.comp_apply, Nat.succ_eq_add_one]
      rw [Nat.add_comm i 1, ← Nat.add_assoc]

/-- Splitting a group-replicated tensor: rank `r` receives chunk `r`. -/
theorem splitPrim_replicate (N d : Nat) (x : Tensor) :
    splitPrim d (List.replicate N x) = (List.range N).map fun r => chunkT N r d x := by
  rw [splitPrim, List.length_replicate, splitAux_replicate N d x N 0]
  exact List.map_congr_left fun i _ => by rw [Nat.zero_add]

/-- All-reduce replicates the group sum to every rank. -/
theorem reducePrim_eq_replicate (gs : List Tensor) :
    reducePrim gs = List.replicate gs.length (sumT gs) := by
  simp [reducePrim, List.map_const']

/-- Gather replicates the rank-order concatenation to every rank. -/
theorem gatherPrim_eq_replicate (d : Nat) (xs : List Tensor) :
    gatherPrim d xs = List.replicate xs.length (concatT d xs) := by
  simp [gatherPrim, List.map_const']

/-- Setting a valid axis to its own size is the identity on the shape. -/
theorem set_sizeAt_self (s : List Nat) (d : Nat) (h : d < s.length) :
    s.set d (sizeAt s d) = s := list_set_getD_self s d h

/-- With a single-rank group, the chunk of rank 0 is the whole tensor. -/
theorem chunkT_one (x : Tensor) (d : Nat) (hwf : x.wf) (hd : d < x.shape.length) :
    chunkT 1 0 d x = x := by
  have hprod : x.data.length = outerOf x.shape d * (sizeAt x.shape d * innerOf x.shape d) :=
    hwf.trans (prod_decomp x.shape d hd)
  have h1 : (chunkT 1 0 d x).shape = x.shape := by
    simp only [chunkT, Nat.div_one]
    exact set_sizeAt_self x.shape d hd
  have h2 : (chunkT 1 0 d x).data = x.data := by
    simp only [chunkT, Nat.div_one, Nat.zero_mul]
    exact chunkData_full _ _ _ hprod
  exact Tensor.ext h1 h2

/-- Concatenating a single shard returns that shard. -/
theorem concatT_single (x : Tensor) (d : Nat) (hwf : x.wf) (hd : d < x.shape.length) :
    concatT d [x] = x := by
  have hprod : x.data.length = outerOf x.shape d * (sizeAt x.shape d * innerOf x.shape d) :=
    hwf.trans (prod_decomp x.shape d hd)
  have h1 : (concatT d [x]).shape = x.shape := by
    simp only [concatT, List.length_cons, List.length_nil, Nat.zero_add, Nat.one_mul]
    exact set_sizeAt_self x.shape d hd
  have h2 : (concatT d [x]).data = x.data := by
    simp only [concatT, List.map_cons, List.map_nil]
    exact catBlocks_single _ _ _ hprod
  exact Tensor.ext h1 h2

/-- Explicit form of a chunk along axis 0 of a well-formed tensor. -/
theorem chunkT_dim0 (N r S : Nat) (rest : List Nat) (dat : List Int)
    (hwf : dat.length = S * rest.prod) :
    chunkT N r 0 ⟨S :: rest, dat⟩ =
      ⟨S / N :: rest,
       (dat.drop (r * (S / N * rest.prod))).take (S / N * rest.prod)⟩ := by
  have htake : dat.take (S * rest.prod) = dat :=
    List.take_of_length_le (le_of_eq hwf)
  apply Tensor.ext
  · rfl
  · show chunkData 1 (S * rest.prod) (r * (S / N * rest.prod)) (S / N * rest.prod) dat = _
    simp only [chunkData, List.append_nil, htake]

/-- `concatT` along axis 0 of a nonempty shard list whose head has shape
`c :: rest`: the axis-0 sizes add up and the data lists are concatenated. -/
theorem concatT_head_shape (c : Nat) (rest : List Nat) :
    ∀ (ts : List Tensor), ts.head?.map Tensor.shape = some (c :: rest) →
    concatT 0 ts =
      ⟨(ts.length * c) :: rest,
       ((ts.map Tensor.data).map (List.take (c * rest.prod))).flatten⟩
  | [], h => by simp at h
  | t :: ts, h => by
      have hts : t.shape = c :: rest := by simpa using h
      apply Tensor.ext
      · show t.shape.set 0 ((t :: ts).length * sizeAt t.shape 0) = _
        rw [hts]
        simp [sizeAt]
      · show catBlocks (outerOf t.shape 0) (sizeAt t.shape 0 * innerOf t.shape 0)
            ((t :: ts).map Tensor.data) = _
        rw [hts]
        simp only [outerOf, List.take_zero, List.prod_nil, sizeAt, List.getD_cons_zero,
          innerOf, List.drop_succ_cons, List.drop_zero]
        simp [catBlocks]

/-- Gathering the `N` axis-0 chunks of a well-formed tensor along axis 0
reconstructs the tensor, provided the axis size is divisible by `N`. -/
theorem concat_chunks_dim0 (N S : Nat) (rest : List Nat) (dat : List Int)
    (hN : 0 < N) (hdvd : N ∣ S) (hwf : dat.length = S * rest.prod) :
    concatT 0 ((List.range N).map fun r => chunkT N r 0 ⟨S :: rest, dat⟩) =
      ⟨S :: rest, dat⟩ := by
  have hSc : N * (S / N) = S := Nat.mul_div_cancel' hdvd
  have hlen : dat.length = N * (S / N * rest.prod) := by
    rw [hwf, ← Nat.mul_assoc, hSc]
  have hchunks : ((List.range N).map fun r => chunkT N r 0 ⟨S :: rest, dat⟩)
      = (List.range N).map fun r =>
        (⟨S / N :: rest,
          (dat.drop (r * (S / N * rest.prod))).take (S / N * rest.prod)⟩ : Tensor) :=
    List.map_congr_left fun r _ => chunkT_dim0 N r S rest dat hwf
  rw [hchunks]
  obtain ⟨N', rfl⟩ : ∃ N', N = N' + 1 := ⟨N - 1, (Nat.succ_pred_eq_of_pos hN).symm⟩
  rw [concatT_head_shape (S / (N' + 1)) rest _
    (by rw [List.range_succ_eq_map, List.map_cons]; rfl)]
  apply Tensor.ext
  · simp only [List.length_map, List.length_range]
    rw [hSc]
  · rw [List.map_map, List.map_map]
    refine Eq.trans (congrArg List.flatten (List.map_congr_left fun i _ => ?_))
      (flatten_chunks (N' + 1) (S / (N' + 1) * rest.prod) dat hlen)
    simp [List.take_take]

/-! Helper lemmas for the `Except` embedding of the failure semantics. -/

/-- A bound computation errors exactly when its first stage errors or its
first stage succeeds and its second stage errors, with the same error. -/
theorem exceptBind_error_iff {ε α β : Type} (m : Except ε α) (f : α → Except ε β) (e : ε) :
    (m >>= f) = Except.error e ↔
      m = Except.error e ∨ ∃ a, m = Except.ok a ∧ f a = Except.error e := by
  cases m <;> simp [Bind.bind, Except.bind]

/-- `pure` never errors. -/
theorem exceptPure_ne_error {ε α : Type} (a : α) (e : ε) :
    (pure a : Except ε α) ≠ Except.error e := by
  simp [pure, Except.pure]

/-! The claims. -/

/-- C1: Scatter and Gather are exact adjoints of each other: for every
per-rank gradient list `gs` and every dim `d` (recorded at forward), the
backward of Scatter — the full gradient every rank receives — equals the
forward of Gather applied to the per-rank `gs`, and conversely the backward
of Gather equals the forward of Scatter. -/
theorem scatter_gather_adjoint (xs gs : List Tensor) (d : Nat) :
    (ScatterToMatmulParallelRegion.backward
        (ScatterToMatmulParallelRegion.forward xs d).2 gs).map Prod.fst
      = (GatherFromMatmulParallelRegion.forward gs d).1 ∧
    (GatherFromMatmulParallelRegion.backward
        (GatherFromMatmulParallelRegion.forward xs d).2 gs).map Prod.fst
      = (ScatterToMatmulParallelRegion.forward gs d).1 := by
  constructor
  · simp [ScatterToMatmulParallelRegion.backward, ScatterToMatmulParallelRegion.forward,
      GatherFromMatmulParallelRegion.forward, List.map_map, Function.comp_def]
  · simp [GatherFromMatmulParallelRegion.backward, GatherFromMatmulParallelRegion.forward,
      ScatterToMatmulParallelRegion.forward, List.map_map, Function.comp_def]

/-- C2: Copy's forward returns the input unchanged on every rank, and Copy's
backward gives every rank the all-reduce sum of the per-rank gradients. -/
theorem copy_identity_backward_reduce (xs gs : List Tensor) :
    CopyToMatmulParallelRegion.forward xs = xs ∧
    CopyToMatmulParallelRegion.backward gs = gs.map fun _ => sumT gs := by
  exact ⟨rfl, rfl⟩

/-- C3: Reduce's forward gives every rank the all-reduce sum of the per-rank
inputs, and Reduce's backward returns the incoming gradient unchanged. -/
theorem reduce_forward_reduce_backward_identity (xs gs : List Tensor) :
    ReduceFromMatmulParallelRegion.forward xs = xs.map (fun _ => sumT xs) ∧
    ReduceFromMatmulParallelRegion.backward gs = gs := by
  exact ⟨rfl, rfl⟩

/-- C6: each dimension-taking forward records exactly its dim argument in the
call-scoped context, and the corresponding backward run on that recorded
context performs its collective at exactly that dim, with no global involved
and the caller never re-specifying it. -/
theorem dim_consistency (xs gs : List Tensor) (d : Nat) :
    (ScatterToMatmulParallelRegion.forward xs d).2 = { dim := d } ∧
    ScatterToMatmulParallelRegion.backward
        (ScatterToMatmulParallelRegion.forward xs d).2 gs
      = (gatherPrim d gs).map (fun t => (t, none)) ∧
    (GatherFromMatmulParallelRegion.forward xs d).2 = { dim := d } ∧
    GatherFromMatmulParallelRegion.backward
        (GatherFromMatmulParallelRegion.forward xs d).2 gs
      = (splitPrim d gs).map (fun t => (t, none)) ∧
    (GatherWithinMatmulParallelRegion.forward xs d).2 = { dim := d } ∧
    GatherWithinMatmulParallelRegion.backward
        (GatherWithinMatmulParallelRegion.forward xs d).2 gs
      = (splitPrim d (reducePrim gs)).map (fun t => (t, none)) := by
  exact ⟨rfl, rfl, rfl, rfl, rfl, rfl⟩

/-- C9: the backward of each dimension-taking operator yields on every rank a
pair whose second component — the gradient w.r.t. the `dim` argument — is
`none`; Copy's and Reduce's backward are plain tensor lists with no such
slot. -/
theorem backward_dim_grad_none (ctx : SavedCtx) (gs : List Tensor) :
    (ScatterToMatmulParallelRegion.backward ctx gs).map Prod.snd
      = List.replicate gs.length none ∧
    (GatherFromMatmulParallelRegion.backward ctx gs).map Prod.snd
      = List.replicate gs.length none ∧
    (GatherWithinMatmulParallelRegion.backward ctx gs).map Prod.snd
      = List.replicate gs.length none ∧
    CopyToMatmulParallelRegion.backward gs = reducePrim gs ∧
    ReduceFromMatmulParallelRegion.backward gs = gs := by
  refine ⟨?_, ?_, ?_, rfl, rfl⟩
  · simp [ScatterToMatmulParallelRegion.backward, gatherPrim, List.map_map,
      List.map_const', Function.comp_def]
  · simp [GatherFromMatmulParallelRegion.backward, List.map_map, List.map_const',
      splitPrim_length, Function.comp_def]
  · simp [GatherWithinMatmulParallelRegion.backward, List.map_map, List.map_const',
      splitPrim_length, reducePrim, Function.comp_def]

/-- C10: for each of the five operators the symbolic (graph-export) method
computes exactly the same function of the input (and dim) as the forward
method. -/
theorem symbolic_matches_forward (xs : List Tensor) (d : Nat) :
    CopyToMatmulParallelRegion.symbolic xs = CopyToMatmulParallelRegion.forward xs ∧
    ReduceFromMatmulParallelRegion.symbolic xs = ReduceFromMatmulParallelRegion.forward xs ∧
    ScatterToMatmulParallelRegion.symbolic xs d
      = (ScatterToMatmulParallelRegion.forward xs d).1 ∧
    GatherFromMatmulParallelRegion.symbolic xs d
      = (GatherFromMatmulParallelRegion.forward xs d).1 ∧
    GatherWithinMatmulParallelRegion.symbolic xs d
      = (GatherWithinMatmulParallelRegion.forward xs d).1 := by
  exact ⟨rfl, rfl, rfl, rfl, rfl⟩

/-- C4: Gather-Within's forward is the same function as Gather's forward, and
its backward on rank `r` is shard `r` of the all-reduce sum of the per-rank
gradients, split along the recorded dim. -/
theorem gather_within_reduce_then_split (xs gs : List Tensor) (d r : Nat)
    (hr : r < gs.length) :
    GatherWithinMatmulParallelRegion.forward xs d
      = GatherFromMatmulParallelRegion.forward xs d ∧
    (GatherWithinMatmulParallelRegion.backward { dim := d } gs)[r]?
      = some (chunkT gs.length r d (sumT gs), none) := by
  refine ⟨rfl, ?_⟩
  rw [GatherWithinMatmulParallelRegion.backward, reducePrim_eq_replicate,
    splitPrim_replicate]
  rw [List.getElem?_map, List.getElem?_map, List.getElem?_range hr]
  rfl

/-- C4 witness: a concrete two-rank group along dim 0. -/
theorem gather_within_reduce_then_split_witness :
    GatherWithinMatmulParallelRegion.forward
        [Tensor.mk [2] [1, 2], Tensor.mk [2] [3, 4]] 0
      = GatherFromMatmulParallelRegion.forward
        [Tensor.mk [2] [1, 2], Tensor.mk [2] [3, 4]] 0 ∧
    (GatherWithinMatmulParallelRegion.backward { dim := 0 }
        [Tensor.mk [2] [1, 2], Tensor.mk [2] [3, 4]])[1]?
      = some (chunkT 2 1 0 (sumT [Tensor.mk [2] [1, 2], Tensor.mk [2] [3, 4]]), none) :=
  gather_within_reduce_then_split
    [Tensor.mk [2] [1, 2], Tensor.mk [2] [3, 4]]
    [Tensor.mk [2] [1, 2], Tensor.mk [2] [3, 4]] 0 1 (by decide)

/-- C5: Scatter/Gather round trip — for a tensor of shape `(S, ...)` with `S`
divisible by the group size `N`, gathering (dim 0) the per-rank results of
scattering (dim 0) the replicated tensor reconstructs it exactly on every
rank. -/
theorem scatter_gather_round_trip (x : Tensor) (S : Nat) (rest : List Nat) (N : Nat)
    (hshape : x.shape = S :: rest) (hwf : x.wf) (hN : 0 < N) (hdvd : N ∣ S) :
    (GatherFromMatmulParallelRegion.forward
        (ScatterToMatmulParallelRegion.forward (List.replicate N x) 0).1 0).1
      = List.replicate N x := by
  obtain ⟨s, dat⟩ := x
  obtain rfl : s = S :: rest := hshape
  have hwf' : dat.length = S * rest.prod := by simpa [Tensor.wf] using hwf
  show (gatherPrim 0 (splitPrim 0 (List.replicate N (Tensor.mk (S :: rest) dat)))) = _
  rw [splitPrim_replicate, gatherPrim_eq_replicate, List.length_map, List.length_range,
    concat_chunks_dim0 N S rest dat hN hdvd hwf']

/-- C5 witness: a (4, 2) tensor split across two ranks along dim 0. -/
theorem scatter_gather_round_trip_witness :
    (GatherFromMatmulParallelRegion.forward
        (ScatterToMatmulParallelRegion.forward
          (List.replicate 2 (Tensor.mk [4, 2] [0, 1, 2, 3, 4, 5, 6, 7])) 0).1 0).1
      = List.replicate 2 (Tensor.mk [4, 2] [0, 1, 2, 3, 4, 5, 6, 7]) :=
  scatter_gather_round_trip (Tensor.mk [4, 2] [0, 1, 2, 3, 4, 5, 6, 7]) 4 [2] 2
    rfl (by decide) (by decide) (by decide)

/-- C7: with a single-rank group (`N = 1`, where the collectives degenerate
to the identity), all five operations are the identity in both the forward
and the backward direction, for every well-formed tensor and valid dim. -/
theorem single_rank_identity (x g : Tensor) (d : Nat)
    (hx : x.wf) (hg : g.wf) (hdx : d < x.shape.length) (hdg : d < g.shape.length) :
    CopyToMatmulParallelRegion.forward [x] = [x] ∧
    CopyToMatmulParallelRegion.backward [g] = [g] ∧
    ReduceFromMatmulParallelRegion.forward [x] = [x] ∧
    ReduceFromMatmulParallelRegion.backward [g] = [g] ∧
    (ScatterToMatmulParallelRegion.forward [x] d).1 = [x] ∧
    (ScatterToMatmulParallelRegion.backward { dim := d } [g]).map Prod.fst = [g] ∧
    (GatherFromMatmulParallelRegion.forward [x] d).1 = [x] ∧
    (GatherFromMatmulParallelRegion.backward { dim := d } [g]).map Prod.fst = [g] ∧
    (GatherWithinMatmulParallelRegion.forward [x] d).1 = [x] ∧
    (GatherWithinMatmulParallelRegion.backward { dim := d } [g]).map Prod.fst = [g] := by
  have hsplit : ∀ (t : Tensor), t.wf → d < t.shape.length → splitPrim d [t] = [t] := by
    intro t hw hd
    show [chunkT 1 0 d t] = [t]
    rw [chunkT_one t d hw hd]
  have hgather : ∀ (t : Tensor), t.wf → d < t.shape.length → gatherPrim d [t] = [t] := by
    intro t hw hd
    show [concatT d [t]] = [t]
    rw [concatT_single t d hw hd]
  refine ⟨rfl, rfl, rfl, rfl, ?_, ?_, ?_, ?_, ?_, ?_⟩
  · exact hsplit x hx hdx
  · show ((gatherPrim d [g]).map fun t => (t, none)).map Prod.fst = [g]
    rw [hgather g hg hdg]
    rfl
  · exact hgather x hx hdx
  · show ((splitPrim d [g]).map fun t => (t, none)).map Prod.fst = [g]
    rw [hsplit g hg hdg]
    rfl
  · exact hgather x hx hdx
  · show ((splitPrim d [g]).map fun t => (t, none)).map Prod.fst = [g]
    rw [hsplit g hg hdg]
    rfl

/-- C7 witness: single-rank group, (2, 3) tensors, dim 1. -/
theorem single_rank_identity_witness :
    CopyToMatmulParallelRegion.forward [Tensor.mk [2, 3] [0, 1, 2, 3, 4, 5]]
      = [Tensor.mk [2, 3] [0, 1, 2, 3, 4, 5]] ∧
    CopyToMatmulParallelRegion.backward [Tensor.mk [2, 3] [5, 4, 3, 2, 1, 0]]
      = [Tensor.mk [2, 3] [5, 4, 3, 2, 1, 0]] ∧
    ReduceFromMatmulParallelRegion.forward [Tensor.mk [2, 3] [0, 1, 2, 3, 4, 5]]
      = [Tensor.mk [2, 3] [0, 1, 2, 3, 4, 5]] ∧
    ReduceFromMatmulParallelRegion.backward [Tensor.mk [2, 3] [5, 4, 3, 2, 1, 0]]
      = [Tensor.mk [2, 3] [5, 4, 3, 2, 1, 0]] ∧
    (ScatterToMatmulParallelRegion.forward [Tensor.mk [2, 3] [0, 1, 2, 3, 4, 5]] 1).1
      = [Tensor.mk [2, 3] [0, 1, 2, 3, 4, 5]] ∧
    (ScatterToMatmulParallelRegion.backward { dim := 1 }
        [Tensor.mk [2, 3] [5, 4, 3, 2, 1, 0]]).map Prod.fst
      = [Tensor.mk [2, 3] [5, 4, 3, 2, 1, 0]] ∧
    (GatherFromMatmulParallelRegion.forward [Tensor.mk [2, 3] [0, 1, 2, 3, 4, 5]] 1).1
      = [Tensor.mk [2, 3] [0, 1, 2, 3, 4, 5]] ∧
    (GatherFromMatmulParallelRegion.backward { dim := 1 }
        [Tensor.mk [2, 3] [5, 4, 3, 2, 1, 0]]).map Prod.fst
      = [Tensor.mk [2, 3] [5, 4, 3, 2, 1, 0]] ∧
    (GatherWithinMatmulParallelRegion.forward [Tensor.mk [2, 3] [0, 1, 2, 3, 4, 5]] 1).1
      = [Tensor.mk [2, 3] [0, 1, 2, 3, 4, 5]] ∧
    (GatherWithinMatmulParallelRegion.backward { dim := 1 }
        [Tensor.mk [2, 3] [5, 4, 3, 2, 1, 0]]).map Prod.fst
      = [Tensor.mk [2, 3] [5, 4, 3, 2, 1, 0]] :=
  single_rank_identity (Tensor.mk [2, 3] [0, 1, 2, 3, 4, 5])
    (Tensor.mk [2, 3] [5, 4, 3, 2, 1, 0]) 1
    (by decide) (by decide) (by decide) (by decide)

/-- C8: pure error pass-through — each operator method errors exactly when
the Group Registry lookup or a collective primitive it invokes errors, and it
propagates that same error unmodified; whenever every collaborator succeeds
the operator succeeds, so no domain-specific error, retry, or recovery is
ever introduced by the operator set itself. -/
theorem error_passthrough {ε G T : Type} (group : Except ε G)
    (reduceC : G → T → Except ε T) (splitC gatherC : G → Nat → T → Except ε T)
    (x g : T) (d : Nat) (ctx : SavedCtx) (e : ε) :
    (@copyForwardE ε T x ≠ Except.error e) ∧
    (copyBackwardE group reduceC g = Except.error e ↔
      group = Except.error e ∨
        ∃ gr, group = Except.ok gr ∧ reduceC gr g = Except.error e) ∧
    (reduceForwardE group reduceC x = Except.error e ↔
      group = Except.error e ∨
        ∃ gr, group = Except.ok gr ∧ reduceC gr x = Except.error e) ∧
    (@reduceBackwardE ε T g ≠ Except.error e) ∧
    (scatterForwardE group splitC x d = Except.error e ↔
      group = Except.error e ∨
        ∃ gr, group = Except.ok gr ∧ splitC gr d x = Except.error e) ∧
    (scatterBackwardE group gatherC ctx g = Except.error e ↔
      group = Except.error e ∨
        ∃ gr, group = Except.ok gr ∧ gatherC gr ctx.dim g = Except.error e) ∧
    (gatherForwardE group gatherC x d = Except.error e ↔
      group = Except.error e ∨
        ∃ gr, group = Except.ok gr ∧ gatherC gr d x = Except.error e) ∧
    (gatherBackwardE group splitC ctx g = Except.error e ↔
      group = Except.error e ∨
        ∃ gr, group = Except.ok gr ∧ splitC gr ctx.dim g = Except.error e) ∧
    (gatherWithinForwardE group gatherC x d = Except.error e ↔
      group = Except.error e ∨
        ∃ gr, group = Except.ok gr ∧ gatherC gr d x = Except.error e) ∧
    (gatherWithinBackwardE group reduceC splitC ctx g = Except.error e ↔
      group = Except.error e ∨
        ∃ gr, group = Except.ok gr ∧
          (reduceC gr g = Except.error e ∨
            ∃ red, reduceC gr g = Except.ok red ∧
              splitC gr ctx.dim red = Except.error e)) := by
  refine ⟨exceptPure_ne_error x e, ?_, ?_, exceptPure_ne_error g e, ?_, ?_, ?_, ?_, ?_, ?_⟩
  · exact exceptBind_error_iff group (fun gr => reduceC gr g) e
  · exact exceptBind_error_iff group (fun gr => reduceC gr x) e
  · simp only [scatterForwardE, exceptBind_error_iff, exceptPure_ne_error, and_false,
      exists_false, or_false]
  · simp only [scatterBackwardE, exceptBind_error_iff, exceptPure_ne_error, and_false,
      exists_false, or_false]
  · simp only [gatherForwardE, exceptBind_error_iff, exceptPure_ne_error, and_false,
      exists_false, or_false]
  · simp only [gatherBackwardE, exceptBind_error_iff, exceptPure_ne_error, and_false,
      exists_false, or_false]
  · simp only [gatherWithinForwardE, exceptBind_error_iff, exceptPure_ne_error, and_false,
      exists_false, or_false]
  · rcases group with e' | gr
    · simp [gatherWithinBackwardE, Bind.bind, Except.bind]
    · rcases hred : reduceC gr g with er | red
      · simp [gatherWithinBackwardE, Bind.bind, Except.bind, hred]
      · rcases hsp : splitC gr ctx.dim red with es | y
        · simp [gatherWithinBackwardE, Bind.bind, Except.bind, hred, hsp]
        · simp [gatherWithinBackwardE, Bind.bind, Except.bind, hred, hsp,
            exceptPure_ne_error]
